import Mathlib

/-!
Verification development for the classroom-poller repository.

The JavaScript sources are shallowly embedded: machine timestamps are
modelled as integer milliseconds since the Unix epoch, JS strings as Lean
`String`, nullable values as `Option`, and the fallible per-course fetches
as `Except`.  `Date.UTC` and the `Intl` calendar-day formatting are
modelled by the standard proleptic-Gregorian civil-calendar conversion
(days-from-civil and its inverse), and `localeCompare` by code-point
string comparison.
-/

namespace ClassroomPoller

/-! ## Civil calendar arithmetic (model of `Date.UTC` / `Intl` day keys) -/

/-- Gregorian leap-year test on a natural-number year. -/
def isLeapN (n : Nat) : Bool := n % 4 == 0 && (n % 100 != 0 || n % 400 == 0)

/-- Gregorian leap-year test on an integer year. -/
def isLeap (y : Int) : Bool := y % 4 == 0 && (y % 100 != 0 || y % 400 == 0)

/-- Number of days in month `m` (1-12) of year `y`. -/
def daysInMonth (y : Int) (m : Nat) : Nat :=
  if m = 2 then (if isLeap y then 29 else 28)
  else if m = 4 ∨ m = 6 ∨ m = 9 ∨ m = 11 then 30 else 31

/-- Day-of-March-year on which shifted month `mp` (0 = March .. 11 = February) starts. -/
def monthStart (mp : Nat) : Nat := (153 * mp + 2) / 5

/-- Day of the March-based year for shifted month `mp` and day-of-month `d` (1-based). -/
def doyOf (mp d : Nat) : Nat := monthStart mp + d - 1

/-- Day-of-era on which March-based year `yoe` (0-399) starts. -/
def yearStart (yoe : Nat) : Nat := 365 * yoe + yoe / 4 - yoe / 100

/-- Leap-day adjustment used to recover the year from a day-of-era. -/
def gAdj (doe : Nat) : Nat := doe - doe / 1460 + doe / 36524 - doe / 146096

/-- Year-of-era recovered from a day-of-era. -/
def yoeOf (doe : Nat) : Nat := gAdj doe / 365

/-- Length of shifted month `mp` (0 = March .. 11 = February). -/
def marchMonthLen (mp : Nat) (leap : Bool) : Nat :=
  match mp with
  | 0 => 31 | 1 => 30 | 2 => 31 | 3 => 30 | 4 => 31 | 5 => 31
  | 6 => 30 | 7 => 31 | 8 => 30 | 9 => 31 | 10 => 31
  | _ => if leap then 29 else 28

/-- Length of March-based year `yoe` of an era. -/
def marchYearLen (yoe : Nat) : Nat := if isLeapN (yoe + 1) then 366 else 365

/-- Days since 1970-01-01 of the civil date `(y, m, d)` (proleptic Gregorian). -/
def daysFromCivil (y : Int) (m d : Nat) : Int :=
  let yAdj : Int := if m ≤ 2 then y - 1 else y
  let era : Int := yAdj / 400
  let yoe : Nat := (yAdj - era * 400).toNat
  let mp : Nat := if m ≤ 2 then m + 9 else m - 3
  era * 146097 + ((yearStart yoe + doyOf mp d : Nat) : Int) - 719468

/-- Civil date `(y, m, d)` of the day `z` days after 1970-01-01. -/
def civilFromDays (z : Int) : Int × Nat × Nat :=
  let zShift : Int := z + 719468
  let era : Int := zShift / 146097
  let doe : Nat := (zShift - era * 146097).toNat
  let yoe : Nat := yoeOf doe
  let doy : Nat := doe - yearStart yoe
  let mp : Nat := (5 * doy + 2) / 153
  let dd : Nat := doy - monthStart mp + 1
  let mm : Nat := if mp < 10 then mp + 3 else mp - 9
  let yMarch : Int := (yoe : Int) + era * 400
  (if mm ≤ 2 then yMarch + 1 else yMarch, mm, dd)

set_option maxRecDepth 100000 in
set_option maxHeartbeats 1000000 in
theorem yearStart_bounds : ∀ yoe, yoe < 400 →
    365 * yoe ≤ gAdj (yearStart yoe) ∧
    gAdj (yearStart yoe + marchYearLen yoe - 1) ≤ 365 * yoe + 364 ∧
    yearStart yoe + marchYearLen yoe - 1 ≤ 146096 ∧
    1 ≤ marchYearLen yoe := by decide

set_option maxRecDepth 100000 in
set_option maxHeartbeats 1000000 in
theorem month_roundtrip : ∀ (leap : Bool), ∀ mp, mp < 12 → ∀ dm1, dm1 < marchMonthLen mp leap →
    (5 * doyOf mp (dm1 + 1) + 2) / 153 = mp ∧
    doyOf mp (dm1 + 1) - monthStart mp + 1 = dm1 + 1 ∧
    doyOf mp (dm1 + 1) < (if leap then 366 else 365) := by decide

theorem gAdj_step (x : Nat) (hx : x < 146096) : gAdj x ≤ gAdj (x + 1) := by
  unfold gAdj; omega

theorem gAdj_mono : ∀ a b, b ≤ 146096 → a ≤ b → gAdj a ≤ gAdj b := by
  intro a b hb hab
  induction b with
  | zero =>
    have ha : a = 0 := by omega
    simp [ha]
  | succ n ih =>
    rcases Nat.lt_or_ge a (n + 1) with h | h
    · exact le_trans (ih (by omega) (by omega)) (gAdj_step n (by omega))
    · have ha : a = n + 1 := by omega
      exact ha ▸ le_refl _

theorem yoeOf_in_year (yoe : Nat) (hy : yoe < 400) (doy : Nat)
    (hd : doy < marchYearLen yoe) :
    yoeOf (yearStart yoe + doy) = yoe ∧ yearStart yoe + doy ≤ 146096 := by
  obtain ⟨h1, h2, h3, _⟩ := yearStart_bounds yoe hy
  have hle : yearStart yoe + doy ≤ yearStart yoe + marchYearLen yoe - 1 := by omega
  have hlo : gAdj (yearStart yoe) ≤ gAdj (yearStart yoe + doy) :=
    gAdj_mono _ _ (by omega) (by omega)
  have hhi : gAdj (yearStart yoe + doy) ≤ gAdj (yearStart yoe + marchYearLen yoe - 1) :=
    gAdj_mono _ _ (by omega) hle
  constructor
  · unfold yoeOf
    omega
  · omega

theorem isLeap_periodic (y k : Int) : isLeap (y + 400 * k) = isLeap y := by
  unfold isLeap
  have h4 : (y + 400 * k) % 4 = y % 4 := by omega
  have h100 : (y + 400 * k) % 100 = y % 100 := by omega
  have h400 : (y + 400 * k) % 400 = y % 400 := by omega
  rw [h4, h100, h400]

theorem isLeap_cast (n : Nat) : isLeap (n : Int) = isLeapN n := by
  unfold isLeap isLeapN
  have h4 : ((n : Int) % 4 == 0) = (n % 4 == 0) := by
    rw [Bool.eq_iff_iff]; simp only [beq_iff_eq]; omega
  have h100 : ((n : Int) % 100 != 0) = (n % 100 != 0) := by
    rw [Bool.eq_iff_iff]; simp only [bne_iff_ne, ne_eq]; omega
  have h400 : ((n : Int) % 400 == 0) = (n % 400 == 0) := by
    rw [Bool.eq_iff_iff]; simp only [beq_iff_eq]; omega
  rw [h4, h100, h400]

theorem daysInMonth_eq_marchMonthLen (y : Int) (m : Nat) (h3 : 3 ≤ m) (h12 : m ≤ 12)
    (leapb : Bool) : daysInMonth y m = marchMonthLen (m - 3) leapb := by
  interval_cases m <;> rfl

theorem civilFromDays_daysFromCivil (y : Int) (m d : Nat)
    (hm1 : 1 ≤ m) (hm2 : m ≤ 12) (hd1 : 1 ≤ d) (hd2 : d ≤ daysInMonth y m) :
    civilFromDays (daysFromCivil y m d) = (y, m, d) := by
  -- era / year-of-era decomposition
  set yAdj : Int := if m ≤ 2 then y - 1 else y with hyAdj
  set era : Int := yAdj / 400 with hera
  have hmod : yAdj - era * 400 = yAdj % 400 := by omega
  have hmod0 : 0 ≤ yAdj % 400 := Int.emod_nonneg yAdj (by norm_num)
  have hmodlt : yAdj % 400 < 400 := Int.emod_lt_of_pos yAdj (by norm_num)
  set yoeN : Nat := (yAdj - era * 400).toNat with hyoeN
  have hyoeNlt : yoeN < 400 := by omega
  have hyAdjeq : yAdj = era * 400 + (yoeN : Int) := by omega
  set mp : Nat := if m ≤ 2 then m + 9 else m - 3 with hmp
  have hmplt : mp < 12 := by
    rw [hmp]; split <;> omega
  -- the leap flag of the March-based year matches `daysInMonth`
  set leap : Bool := isLeapN (yoeN + 1) with hleap
  have hdm : d ≤ marchMonthLen mp leap := by
    rcases Nat.lt_or_ge m 3 with hm3 | hm3
    · -- January or February
      have hyback : y = (yoeN : Int) + 1 + 400 * era := by
        have h1 : yAdj = y - 1 := by rw [hyAdj, if_pos (by omega)]
        omega
      have hiso : isLeap y = leap := by
        have hcast : ((yoeN + 1 : Nat) : Int) = (yoeN : Int) + 1 := by push_cast; ring
        rw [hyback, isLeap_periodic, ← hcast, isLeap_cast, hleap]
      interval_cases m
      · have hmpv : mp = 10 := by rw [hmp]; decide
        rw [hmpv]
        simpa [daysInMonth] using hd2
      · have hmpv : mp = 11 := by rw [hmp]; decide
        rw [hmpv]
        rw [show marchMonthLen 11 leap = if leap then 29 else 28 from rfl]
        rw [← hiso]
        simpa [daysInMonth] using hd2
    · have hmpv : mp = m - 3 := by rw [hmp, if_neg (by omega)]
      rw [hmpv, ← daysInMonth_eq_marchMonthLen y m hm3 hm2 leap]
      exact hd2
  -- month-level and year-level recovery
  obtain ⟨hmrt1, hmrt2, hmrt3⟩ := month_roundtrip leap mp hmplt (d - 1) (by omega)
  have hdsub : d - 1 + 1 = d := by omega
  rw [hdsub] at hmrt1 hmrt2 hmrt3
  set doy : Nat := doyOf mp d with hdoy
  have hdoylt : doy < marchYearLen yoeN := by
    rw [marchYearLen, ← hleap]
    exact hmrt3
  obtain ⟨hyrt, hdoelt⟩ := yoeOf_in_year yoeN hyoeNlt doy hdoylt
  set doe : Nat := yearStart yoeN + doy with hdoe
  -- compute daysFromCivil
  have hdfc : daysFromCivil y m d = era * 146097 + (doe : Int) - 719468 := by
    rw [daysFromCivil]
  rw [hdfc]
  -- compute civilFromDays
  rw [civilFromDays]
  have hshift : era * 146097 + (doe : Int) - 719468 + 719468 = era * 146097 + (doe : Int) := by
    ring
  rw [hshift]
  have heraz : (era * 146097 + (doe : Int)) / 146097 = era := by
    rw [add_comm, Int.add_mul_ediv_right _ _ (by norm_num : (146097 : Int) ≠ 0)]
    rw [Int.ediv_eq_zero_of_lt (by positivity) (by exact_mod_cast hdoelt.trans_lt (by norm_num))]
    ring
  rw [heraz]
  have hdoez : (era * 146097 + (doe : Int) - era * 146097).toNat = doe := by
    simp
  rw [hdoez]
  rw [hyrt]
  have hdoysub : doe - yearStart yoeN = doy := by omega
  rw [hdoysub, hmrt1, hmrt2]
  -- reassemble month and year
  have hmm : (if mp < 10 then mp + 3 else mp - 9) = m := by
    rcases Nat.lt_or_ge m 3 with h | h
    · have hv : mp = m + 9 := by rw [hmp, if_pos (by omega)]
      rw [hv, if_neg (by omega)]
      omega
    · have hv : mp = m - 3 := by rw [hmp, if_neg (by omega)]
      rw [hv, if_pos (by omega)]
      omega
  rw [hmm]
  rcases Nat.lt_or_ge m 3 with hm3 | hm3
  · have h1 : yAdj = y - 1 := by rw [hyAdj, if_pos (by omega)]
    have hy' : (yoeN : Int) + era * 400 = y - 1 := by omega
    rw [if_pos (by omega : m ≤ 2), hy', show y - 1 + 1 = y from by ring]
  · have h1 : yAdj = y := by rw [hyAdj, if_neg (by omega)]
    have hy' : (yoeN : Int) + era * 400 = y := by omega
    rw [if_neg (by omega : ¬ m ≤ 2), hy']

/-! ## Instants, due dates and day keys -/

/-- Classroom due date as supplied by the remote API. -/
structure RawDueDate where
  year : Int
  month : Nat
  day : Nat
deriving DecidableEq

/-- Classroom due time as supplied by the remote API; either field may be absent. -/
structure RawDueTime where
  hours : Option Nat
  minutes : Option Nat
deriving DecidableEq

/-- Model of JS `Date.UTC(year, monthIndex, day, hours, minutes)` in milliseconds
since the epoch, including the rollover of out-of-range month indices and days. -/
def dateUTC (y monthIndex d h mi : Int) : Int :=
  let ym : Int := y + monthIndex / 12
  let mN : Nat := (monthIndex % 12).toNat + 1
  ((daysFromCivil ym mN 1 + (d - 1)) * 1440 + h * 60 + mi) * 60000

/-- Model of `googleDueToDate(dueDate, dueTime, tzOffsetMinutes)` from the source: treats the
civil due date/time as wall-clock time in a zone `tzOffsetMinutes` east of UTC
(hour defaulting to 23 and minute to 59) and converts it to an absolute instant. -/
def googleDueToDate (dueDate : Option RawDueDate) (dueTime : Option RawDueTime)
    (tzOffsetMinutes : Int := 540) : Option Int :=
  match dueDate with
  | none => none
  | some dd =>
    let hour : Nat := (dueTime.bind (·.hours)).getD 23
    let minute : Nat := (dueTime.bind (·.minutes)).getD 59
    some (dateUTC dd.year ((dd.month : Int) - 1) dd.day hour minute
      - tzOffsetMinutes * 60000)

/-- Left-pad the decimal representation of `n` with zeros to width `w`. -/
def padNum (w n : Nat) : String :=
  let s := toString n
  String.mk (List.replicate (w - s.length) '0') ++ s

/-- Render a civil date triple as a `YYYY-MM-DD` string. -/
def formatDayKey : Int × Nat × Nat → String
  | (y, m, d) =>
    (if y < 0 then "-" ++ padNum 4 (-y).toNat else padNum 4 y.toNat) ++ "-"
      ++ padNum 2 m ++ "-" ++ padNum 2 d

/-- Model of `kstDayKey` from the source: the `YYYY-MM-DD` calendar-day key of an instant in
the Asia/Seoul (+540 minutes) zone; the `Intl` formatter is modelled by
`civilFromDays` on the zone-shifted day number. -/
def kstDayKey (ms : Int) : String :=
  formatDayKey (civilFromDays ((ms + 540 * 60000) / 86400000))

/-- Model of `kstLabel` from the source: cosmetic reformat `YYYY-MM-DD` → `YYYY.MM.DD`. -/
def kstLabel (dayKey : String) : String :=
  String.map (fun c => if c = '-' then '.' else c) dayKey

/-- The UTC instant (in ms) of a given civil date and wall-clock UTC time; used to
state concrete expected instants such as `2024-03-01T14:59:00Z`. -/
def utcMillis (y : Int) (m d h mi : Nat) : Int :=
  (daysFromCivil y m d * 1440 + (h * 60 + mi : Nat)) * 60000

/-- A valid civil calendar date. -/
def ValidDate (y : Int) (m d : Nat) : Prop :=
  1 ≤ m ∧ m ≤ 12 ∧ 1 ≤ d ∧ d ≤ daysInMonth y m

/-- The wall-clock time selected by `googleDueToDate` (with its 23:59 default) is
in range. -/
def ValidTime (dueTime : Option RawDueTime) : Prop :=
  (dueTime.bind (·.hours)).getD 23 < 24 ∧ (dueTime.bind (·.minutes)).getD 59 < 60

theorem daysFromCivil_day_lin (y : Int) (m d : Nat) (hd1 : 1 ≤ d) :
    daysFromCivil y m 1 + ((d : Int) - 1) = daysFromCivil y m d := by
  simp only [daysFromCivil, doyOf, monthStart, yearStart]
  omega

theorem dateUTC_day (y : Int) (m d h mi : Nat) (hm1 : 1 ≤ m) (hm2 : m ≤ 12)
    (hd1 : 1 ≤ d) (hh : h < 24) (hmi : mi < 60) :
    dateUTC y ((m : Int) - 1) d h mi / 86400000 = daysFromCivil y m d := by
  have hdiv : ((m : Int) - 1) / 12 = 0 := by omega
  have hmod : (((m : Int) - 1) % 12).toNat + 1 = m := by omega
  simp only [dateUTC]
  rw [hdiv, add_zero, hmod]
  rw [daysFromCivil_day_lin y m d hd1]
  omega

theorem googleDueToDate_some (dd : RawDueDate) (dueTime : Option RawDueTime) (tz : Int) :
    googleDueToDate (some dd) dueTime tz
      = some (dateUTC dd.year ((dd.month : Int) - 1) dd.day
          ((dueTime.bind (·.hours)).getD 23) ((dueTime.bind (·.minutes)).getD 59)
          - tz * 60000) := rfl

theorem dayKey_roundtrip (y : Int) (m d : Nat) (dueTime : Option RawDueTime)
    (hv : ValidDate y m d) (ht : ValidTime dueTime) :
    (googleDueToDate (some ⟨y, m, d⟩) dueTime 540).map kstDayKey
      = some (formatDayKey (y, m, d)) := by
  obtain ⟨hm1, hm2, hd1, hd2⟩ := hv
  obtain ⟨hh, hmi⟩ := ht
  rw [googleDueToDate_some]
  set hr : Nat := (dueTime.bind (·.hours)).getD 23 with hhr
  set mn : Nat := (dueTime.bind (·.minutes)).getD 59 with hmn
  simp only [Option.map_some']
  congr 1
  rw [kstDayKey]
  have hcancel : dateUTC y ((m : Int) - 1) d hr mn - 540 * 60000 + 540 * 60000
      = dateUTC y ((m : Int) - 1) d hr mn := by ring
  rw [hcancel, dateUTC_day y m d hr mn hm1 hm2 hd1 hh hmi]
  rw [civilFromDays_daysFromCivil y m d hm1 hm2 hd1 hd2]

/-- Claim C2, counterexample: the claim asserts that
`civilToInstant({year:2024,month:3,day:1}, time absent, offset 540)` yields the
instant `2024-02-29T14:59:00Z`; the code (`googleDueToDate`) actually yields
`2024-03-01T14:59:00Z` (23:59 KST on March 1 is 14:59 UTC on March 1, not on
February 29). -/
theorem claim_C2_counterexample :
    googleDueToDate (some ⟨2024, 3, 1⟩) none 540 ≠ some (utcMillis 2024 2 29 14 59)
      ∧ googleDueToDate (some ⟨2024, 3, 1⟩) none 540 = some (utcMillis 2024 3 1 14 59) := by
  constructor
  · decide
  · decide

/-- Claim C2 (amended): for every valid calendar date and optional time,
`googleDueToDate` at offset 540 followed by `kstDayKey` in the +540 zone recovers
the original calendar day as a `YYYY-MM-DD` string; the boundary example
`{year:2024, month:3, day:1}` with absent time (defaulting to 23:59) yields the
instant `2024-03-01T14:59:00Z`, whose day key in the +540 zone is `"2024-03-01"`. -/
theorem claim_C2 :
    (∀ (y : Int) (m d : Nat) (dueTime : Option RawDueTime),
        ValidDate y m d → ValidTime dueTime →
        (googleDueToDate (some ⟨y, m, d⟩) dueTime 540).map kstDayKey
          = some (formatDayKey (y, m, d))) ∧
    googleDueToDate (some ⟨2024, 3, 1⟩) none 540 = some (utcMillis 2024 3 1 14 59) ∧
    kstDayKey (utcMillis 2024 3 1 14 59) = "2024-03-01" :=
  ⟨dayKey_roundtrip, by decide, by decide⟩

/-- Claim C2, witness: the amended theorem applied at the concrete boundary date. -/
theorem claim_C2_witness :
    ValidDate 2024 3 1 ∧ ValidTime none ∧
      (googleDueToDate (some ⟨2024, 3, 1⟩) none 540).map kstDayKey
        = some (formatDayKey (2024, 3, 1)) :=
  ⟨⟨by decide, by decide, by decide, by decide⟩, ⟨by decide, by decide⟩,
    claim_C2.1 2024 3 1 none ⟨by decide, by decide, by decide, by decide⟩
      ⟨by decide, by decide⟩⟩

/-! ## JS string helpers and announcement text normalization -/

/-- Whitespace test for the characters matched by the JS `\s` class (ASCII part). -/
def isWs (c : Char) : Bool :=
  c == ' ' || c == '\t' || c == '\n' || c == '\r' || c == Char.ofNat 11 || c == Char.ofNat 12

/-- One pass of `replace(/\s+/g, " ")`: `inRun` records whether the previous
character was whitespace (that run has already emitted its single space). -/
def collapseGo (inRun : Bool) : List Char → List Char
  | [] => []
  | c :: cs =>
    if isWs c then
      if inRun then collapseGo true cs else ' ' :: collapseGo true cs
    else c :: collapseGo false cs

/-- Model of `s.replace(/\s+/g, " ")`. -/
def collapseWs (l : List Char) : List Char := collapseGo false l

/-- Model of `trim()`: strip leading and trailing whitespace. -/
def trimChars (l : List Char) : List Char :=
  ((l.dropWhile isWs).reverse.dropWhile isWs).reverse

/-- Model of `(text || "").replace(/\s+/g, " ").trim()` from the source. -/
def normalizeText (s : String) : String :=
  String.mk (trimChars (collapseWs s.data))

theorem collapseGo_all_ws (l : List Char) (h : ∀ c ∈ l, isWs c) :
    collapseGo true l = [] := by
  induction l with
  | nil => rfl
  | cons c cs ih =>
    have hc : isWs c := h c (List.mem_cons_self c cs)
    simp only [collapseGo, hc, if_pos, if_true]
    exact ih fun x hx => h x (List.mem_cons_of_mem c hx)

theorem normalizeText_all_ws (s : String) (h : ∀ c ∈ s.data, isWs c) :
    normalizeText s = "" := by
  unfold normalizeText collapseWs
  match hs : s.data with
  | [] => rfl
  | c :: cs =>
    have hc : isWs c := h c (hs ▸ List.mem_cons_self c cs)
    have hcs : collapseGo true cs = [] :=
      collapseGo_all_ws cs fun x hx => h x (hs ▸ List.mem_cons_of_mem c hx)
    have h1 : collapseGo false (c :: cs) = [' '] := by
      simp [collapseGo, hc, hcs]
    rw [h1]
    decide

/-! ## Data model of the run -/

/-- A course as consumed by the pipeline. -/
structure Course where
  id : String
  name : String
  alternateLink : Option String
deriving DecidableEq

/-- A raw coursework record from the remote API. -/
structure RawWork where
  id : String
  title : String
  alternateLink : Option String
  workType : Option String
  dueDate : Option RawDueDate
  dueTime : Option RawDueTime
  creationTime : Option Int
  updateTime : Option Int
deriving DecidableEq

/-- A raw announcement record from the remote API. -/
structure RawAnn where
  id : String
  text : String
  creationTime : Option Int
  updateTime : Option Int
deriving DecidableEq

/-- A normalized output item.  In the day-bucketed pipeline `createdAt` is always
written (`when.toISOString()`), so it is modelled as a plain instant. -/
structure Item where
  id : String
  title : String
  link : Option String
  dueAt : Option Int
  topic : String
  createdAt : Int
deriving DecidableEq

/-- JS `x || dflt` for an optional string: absent or empty falls back to `dflt`. -/
def jsOrStr (v : Option String) (dflt : String) : String :=
  match v with
  | some s => if s = "" then dflt else s
  | none => dflt

/-- JS `x || null` for an optional string: an empty string collapses to null. -/
def jsStrOrNull (v : Option String) : Option String :=
  match v with
  | some s => if s = "" then none else some s
  | none => none

/-- Model of `txt.length > 120 ? txt.slice(0, 117) + "…" : txt` from the source. -/
def truncTitle (txt : String) : String :=
  if txt.length > 120 then String.mk (txt.data.take 117) ++ "…" else txt

/-- Normalization of one coursework record in the day-bucketed pipeline: the
anchor instant (`createdAt`) is updateTime, else creationTime, else `now`. -/
def normalizeWork (now : Int) (c : Course) (w : RawWork) : Item :=
  { id := "cw:" ++ c.id ++ ":" ++ w.id
    title := w.title
    link := w.alternateLink
    dueAt := googleDueToDate w.dueDate w.dueTime 540
    topic := jsOrStr w.workType ("COURSEWORK")
    createdAt := (w.updateTime.or w.creationTime).getD now }

/-- Normalization of one announcement record in the day-bucketed pipeline;
`none` when the whitespace-normalized text is empty (the record is dropped). -/
def normalizeAnn (now : Int) (c : Course) (a : RawAnn) : Option Item :=
  let txt := normalizeText a.text
  if txt = "" then none
  else
    some
      { id := "ann:" ++ c.id ++ ":" ++ a.id
        title := truncTitle txt
        link := jsStrOrNull c.alternateLink
        dueAt := none
        topic := "ANNOUNCEMENT"
        createdAt := (a.updateTime.or a.creationTime).getD now }

/-! ## The two sort comparators -/

/-- Model of `localeCompare` as code-point string comparison with the sign
convention of a JS comparator. -/
def strCmp (a b : String) : Int :=
  if a < b then -1 else if b < a then 1 else 0

/-- The day-bucketed pipeline's in-group comparator: anchor instant descending
(newest first), ties broken by title ascending. -/
def itemCmp (a b : Item) : Int :=
  if a.createdAt ≠ b.createdAt then b.createdAt - a.createdAt
  else strCmp a.title b.title

/-- The flat-snapshot variant's in-group comparator: due instant ascending with
absent due dates treated as `Infinity` (only the sign of the result matters to
the sort), ties broken by title. -/
def flatItemCmp (a b : Item) : Int :=
  match a.dueAt, b.dueAt with
  | some x, some y => if x ≠ y then x - y else strCmp a.title b.title
  | some _, none => -1
  | none, some _ => 1
  | none, none => strCmp a.title b.title

/-- JS `Array.prototype.sort(cmp)` for a consistent comparator, modelled as a
correct sort with respect to the relation `cmp · · ≤ 0`. -/
def jsSortBy (cmp : Item → Item → Int) (l : List Item) : List Item :=
  List.insertionSort (fun a b => cmp a b ≤ 0) l

theorem strCmp_le_iff (a b : String) : strCmp a b ≤ 0 ↔ a ≤ b := by
  unfold strCmp
  rcases lt_trichotomy a b with h | h | h
  · simp [h, le_of_lt h]
  · simp [h, le_of_eq h, lt_irrefl]
  · rw [if_neg (not_lt_of_gt h), if_pos h]
    simp [not_le_of_gt h]

theorem itemCmp_le_iff (a b : Item) :
    itemCmp a b ≤ 0 ↔
      b.createdAt < a.createdAt ∨ (a.createdAt = b.createdAt ∧ a.title ≤ b.title) := by
  unfold itemCmp
  by_cases h : a.createdAt = b.createdAt
  · rw [if_neg (by simp [h])]
    rw [strCmp_le_iff]
    constructor
    · intro hle
      exact Or.inr ⟨h, hle⟩
    · rintro (hlt | ⟨_, hle⟩)
      · omega
      · exact hle
  · rw [if_pos h]
    constructor
    · intro hle
      left
      omega
    · rintro (hlt | ⟨heq, _⟩)
      · omega
      · exact absurd heq h

/-- Strict order on optional due instants with `none` greatest (JS `Infinity`). -/
def OptDueLt : Option Int → Option Int → Prop
  | some x, some y => x < y
  | some _, none => True
  | none, _ => False

theorem flatItemCmp_le_iff (a b : Item) :
    flatItemCmp a b ≤ 0 ↔
      OptDueLt a.dueAt b.dueAt ∨ (a.dueAt = b.dueAt ∧ a.title ≤ b.title) := by
  cases ha : a.dueAt with
  | none =>
    cases hb : b.dueAt with
    | none => simp [flatItemCmp, ha, hb, OptDueLt, strCmp_le_iff]
    | some y => simp [flatItemCmp, ha, hb, OptDueLt]
  | some x =>
    cases hb : b.dueAt with
    | none => simp [flatItemCmp, ha, hb, OptDueLt]
    | some y =>
      by_cases h : x = y
      · subst h
        simp [flatItemCmp, ha, hb, OptDueLt, strCmp_le_iff]
      · simp only [flatItemCmp, ha, hb, OptDueLt, if_pos h, Option.some.injEq]
        constructor
        · intro hle
          left
          omega
        · rintro (hlt | ⟨heq, _⟩)
          · omega
          · exact absurd heq h

theorem sorted_jsSortBy_itemCmp (l : List Item) :
    (jsSortBy itemCmp l).Pairwise (fun a b => itemCmp a b ≤ 0) := by
  haveI htot : IsTotal Item (fun a b => itemCmp a b ≤ 0) := by
    constructor
    intro a b
    rw [itemCmp_le_iff, itemCmp_le_iff]
    rcases lt_trichotomy a.createdAt b.createdAt with h | h | h
    · exact Or.inr (Or.inl h)
    · rcases le_total a.title b.title with ht | ht
      · exact Or.inl (Or.inr ⟨h, ht⟩)
      · exact Or.inr (Or.inr ⟨h.symm, ht⟩)
    · exact Or.inl (Or.inl h)
  haveI htrans : IsTrans Item (fun a b => itemCmp a b ≤ 0) := by
    constructor
    intro a b c hab hbc
    rw [itemCmp_le_iff] at hab hbc ⊢
    rcases hab with h1 | ⟨e1, t1⟩ <;> rcases hbc with h2 | ⟨e2, t2⟩
    · exact Or.inl (by omega)
    · exact Or.inl (by omega)
    · exact Or.inl (by omega)
    · exact Or.inr ⟨e1.trans e2, le_trans t1 t2⟩
  exact List.sorted_insertionSort _ l

theorem perm_jsSortBy (cmp : Item → Item → Int) (l : List Item) :
    (jsSortBy cmp l).Perm l :=
  List.perm_insertionSort _ l

theorem sorted_jsSortBy_flatItemCmp (l : List Item) :
    (jsSortBy flatItemCmp l).Pairwise (fun a b => flatItemCmp a b ≤ 0) := by
  haveI htot : IsTotal Item (fun a b => flatItemCmp a b ≤ 0) := by
    constructor
    intro a b
    rw [flatItemCmp_le_iff, flatItemCmp_le_iff]
    cases ha : a.dueAt with
    | none =>
      cases hb : b.dueAt with
      | none =>
        rcases le_total a.title b.title with ht | ht
        · exact Or.inl (Or.inr ⟨rfl, ht⟩)
        · exact Or.inr (Or.inr ⟨rfl, ht⟩)
      | some y => exact Or.inr (Or.inl trivial)
    | some x =>
      cases hb : b.dueAt with
      | none => exact Or.inl (Or.inl trivial)
      | some y =>
        rcases lt_trichotomy x y with h | h | h
        · exact Or.inl (Or.inl h)
        · subst h
          rcases le_total a.title b.title with ht | ht
          · exact Or.inl (Or.inr ⟨rfl, ht⟩)
          · exact Or.inr (Or.inr ⟨rfl, ht⟩)
        · exact Or.inr (Or.inl h)
  haveI htrans : IsTrans Item (fun a b => flatItemCmp a b ≤ 0) := by
    constructor
    intro a b c hab hbc
    rw [flatItemCmp_le_iff] at hab hbc ⊢
    rcases hab with h1 | ⟨e1, t1⟩
    · rcases hbc with h2 | ⟨e2, t2⟩
      · left
        cases ha : a.dueAt <;> cases hb : b.dueAt <;> cases hc : c.dueAt <;>
          simp_all [OptDueLt] <;> omega
      · left
        rw [← e2]
        exact h1
    · rcases hbc with h2 | ⟨e2, t2⟩
      · left
        rw [e1]
        exact h2
      · exact Or.inr ⟨e1.trans e2, le_trans t1 t2⟩
  exact List.sorted_insertionSort _ l

/-! ## Day-bucketed pipeline -/

/-- In-place update of an insertion-ordered association list (model of a JS
`Map`): apply `f` to the value at `k`, appending `(k, f dflt)` when `k` is absent. -/
def updateAssoc {α : Type} (k : String) (f : α → α) (dflt : α) :
    List (String × α) → List (String × α)
  | [] => [(k, f dflt)]
  | (k', v) :: rest =>
    if k' = k then (k', f v) :: rest else (k', v) :: updateAssoc k f dflt rest

/-- The inner-map update of `pushItem`: append the item to the course's list. -/
def pushInner (courseName : String) (item : Item)
    (byCourse : List (String × List Item)) : List (String × List Item) :=
  updateAssoc courseName (fun items => items ++ [item]) [] byCourse

/-- Model of `pushItem(dayKey, courseName, item)` from the source: nested-map insertion. -/
def pushItem (buckets : List (String × List (String × List Item)))
    (dayKey courseName : String) (item : Item) :
    List (String × List (String × List Item)) :=
  updateAssoc dayKey (pushInner courseName item) [] buckets

/-- The pushes performed for one course: coursework first (treated as zero
results when that fetch failed), then announcements (likewise). -/
def coursePushes (now : Int) (cwRes : Except Unit (List RawWork))
    (annRes : Except Unit (List RawAnn)) (c : Course) : List Item :=
  (match cwRes with
   | .ok ws => ws.map (normalizeWork now c)
   | .error _ => [])
  ++ (match annRes with
      | .ok anns => anns.filterMap (normalizeAnn now c)
      | .error _ => [])

/-- All pushes of a run as `(dayKey, courseName, item)` triples, in order. -/
def collectPushes (now : Int) (courses : List Course)
    (cwFetch : Course → Except Unit (List RawWork))
    (annFetch : Course → Except Unit (List RawAnn)) : List (String × String × Item) :=
  courses.flatMap fun c =>
    (coursePushes now (cwFetch c) (annFetch c) c).map fun it =>
      (kstDayKey it.createdAt, c.name, it)

/-- Fold the pushes into the nested day → course → items map. -/
def buildBuckets (pushes : List (String × String × Item)) :
    List (String × List (String × List Item)) :=
  pushes.foldl (fun b p => pushItem b p.1 p.2.1 p.2.2) []

/-- Lexicographic code-point comparison on character lists (the order JS uses
for its default string sort). -/
def charsLe : List Char → List Char → Bool
  | [], _ => true
  | _ :: _, [] => false
  | a :: as, b :: bs => if a < b then true else if b < a then false else charsLe as bs

/-- Lexicographic string comparison (computable model of the JS default sort
order on strings). -/
def strLe (a b : String) : Bool := charsLe a.data b.data

/-- JS `Array.prototype.sort()` with the default (code-unit ascending) comparator. -/
def sortStrings (l : List String) : List String :=
  List.insertionSort (fun a b : String => strLe a b = true) l

/-- One per-day snapshot document (`docs/days/YYYY-MM-DD.json`). -/
structure SnapshotDoc where
  generatedAt : Int
  day : String
  groups : List (String × List Item)
deriving DecidableEq

/-- The manifest document (`docs/days/index.json`). -/
structure ManifestDoc where
  generatedAt : Int
  latestDay : Option String
  days : List (String × String)
deriving DecidableEq

/-- The full day-bucketed run over fixed remote data: the per-day snapshot
documents in ascending day order, and the manifest. -/
def runBuild (now : Int) (courses : List Course)
    (cwFetch : Course → Except Unit (List RawWork))
    (annFetch : Course → Except Unit (List RawAnn)) :
    List SnapshotDoc × ManifestDoc :=
  let buckets := buildBuckets (collectPushes now courses cwFetch annFetch)
  let days := sortStrings (buckets.map (·.1))
  let snaps := days.map fun dayKey =>
    ({ generatedAt := now
       day := dayKey
       groups := ((buckets.lookup dayKey).getD []).map fun g =>
         (g.1, jsSortBy itemCmp g.2) } : SnapshotDoc)
  (snaps,
    { generatedAt := now
      latestDay := days.getLast?
      days := days.map fun d2 => (d2, kstLabel d2) })

/-- Claim C1: within each course group of a day bucket, the comparator alone
dictates the order — anchor instant descending (newest first), ties broken by
title ascending — regardless of insertion order: the sort of any input list is a
permutation of it that is pairwise ordered this way, and every group in every
snapshot document of a run is so ordered. -/
theorem claim_C1 :
    (∀ l : List Item,
      (jsSortBy itemCmp l).Perm l ∧
      (jsSortBy itemCmp l).Pairwise fun a b =>
        (a.createdAt ≠ b.createdAt → b.createdAt < a.createdAt) ∧
        (a.createdAt = b.createdAt → a.title ≤ b.title)) ∧
    (∀ (now : Int) (courses : List Course)
        (cwFetch : Course → Except Unit (List RawWork))
        (annFetch : Course → Except Unit (List RawAnn)),
      ∀ snap ∈ (runBuild now courses cwFetch annFetch).1,
        ∀ g ∈ snap.groups,
          g.2.Pairwise fun a b =>
            (a.createdAt ≠ b.createdAt → b.createdAt < a.createdAt) ∧
            (a.createdAt = b.createdAt → a.title ≤ b.title)) := by
  have key : ∀ l : List Item, (jsSortBy itemCmp l).Pairwise fun a b =>
      (a.createdAt ≠ b.createdAt → b.createdAt < a.createdAt) ∧
      (a.createdAt = b.createdAt → a.title ≤ b.title) := by
    intro l
    refine (sorted_jsSortBy_itemCmp l).imp ?_
    intro a b hab
    rw [itemCmp_le_iff] at hab
    constructor
    · intro hne
      rcases hab with h | ⟨he, _⟩
      · exact h
      · exact absurd he hne
    · intro he
      rcases hab with h | ⟨_, ht⟩
      · exact absurd he (ne_of_gt h)
      · exact ht
  refine ⟨fun l => ⟨perm_jsSortBy itemCmp l, key l⟩, ?_⟩
  intro now courses cwFetch annFetch snap hsnap g hg
  simp only [runBuild] at hsnap
  obtain ⟨dayKey, _, rfl⟩ := List.mem_map.mp hsnap
  obtain ⟨g0, _, rfl⟩ := List.mem_map.mp hg
  exact key g0.2

/-- Concrete course used by witnesses. -/
def c1Course : Course := ⟨"c1", "Course A", none⟩

/-- Concrete coursework record used by witnesses. -/
def c1Work (i : String) (t : Int) : RawWork :=
  ⟨i, "T" ++ i, none, none, none, none, none, some t⟩

/-- A concrete day-bucketed run used by witnesses. -/
def c1Run : List SnapshotDoc × ManifestDoc :=
  runBuild 0 [c1Course]
    (fun _ => .ok [c1Work ("w1") 1000, c1Work ("w2") 2000])
    (fun _ => .error ())

/-- First snapshot document of the concrete run. -/
def c1Snap : SnapshotDoc := c1Run.1.headD ⟨0, "", []⟩

/-- First course group of that snapshot. -/
def c1Group : String × List Item := c1Snap.groups.headD ("", [])

/-- Claim C1, witness: the in-run ordering statement applied to a concrete run. -/
theorem claim_C1_witness :
    c1Snap ∈ (runBuild 0 [c1Course]
        (fun _ => .ok [c1Work ("w1") 1000, c1Work ("w2") 2000])
        (fun _ => .error ())).1 ∧
    c1Group ∈ c1Snap.groups ∧
    c1Group.2.Pairwise (fun a b =>
      (a.createdAt ≠ b.createdAt → b.createdAt < a.createdAt) ∧
      (a.createdAt = b.createdAt → a.title ≤ b.title)) :=
  ⟨by decide, by decide,
    claim_C1.2 0 [c1Course]
      (fun _ => .ok [c1Work ("w1") 1000, c1Work ("w2") 2000])
      (fun _ => .error ()) c1Snap (by decide) c1Group (by decide)⟩

/-- Claim C10: in the flat-snapshot variant's comparator, within each course
group items are ordered by due instant ascending with items lacking a due date
after all items that have one, ties broken by title comparison: the sort of any
input list is a permutation of it that is pairwise so ordered. -/
theorem claim_C10 (l : List Item) :
    (jsSortBy flatItemCmp l).Perm l ∧
    (jsSortBy flatItemCmp l).Pairwise fun a b =>
      (a.dueAt ≠ b.dueAt → OptDueLt a.dueAt b.dueAt) ∧
      (a.dueAt = b.dueAt → a.title ≤ b.title) := by
  refine ⟨perm_jsSortBy flatItemCmp l, ?_⟩
  refine (sorted_jsSortBy_flatItemCmp l).imp ?_
  intro a b hab
  rw [flatItemCmp_le_iff] at hab
  constructor
  · intro hne
    rcases hab with h | ⟨he, _⟩
    · exact h
    · exact absurd he hne
  · intro he
    rcases hab with h | ⟨_, ht⟩
    · rw [he] at h
      cases hb : b.dueAt <;> rw [hb] at h <;> simp [OptDueLt] at h
    · exact ht

/-- Claim C6: an announcement's text is whitespace-normalized; a record whose
normalized text is empty (in particular all-whitespace text) is dropped;
otherwise the item has the normalized text as title, truncated to 117 characters
plus an ellipsis marker whenever its length exceeds 120, the course's alternate
link, no dueAt, topic `"ANNOUNCEMENT"`, and id `ann:{courseId}:{nativeId}`. -/
theorem claim_C6 (now : Int) (c : Course) (a : RawAnn) :
    ((∀ ch ∈ a.text.data, isWs ch) → normalizeAnn now c a = none) ∧
    (normalizeText a.text = "" → normalizeAnn now c a = none) ∧
    (normalizeText a.text ≠ "" →
      normalizeAnn now c a = some
        { id := "ann:" ++ c.id ++ ":" ++ a.id
          title := if (normalizeText a.text).length > 120
            then String.mk ((normalizeText a.text).data.take 117) ++ "…"
            else normalizeText a.text
          link := jsStrOrNull c.alternateLink
          dueAt := none
          topic := "ANNOUNCEMENT"
          createdAt := (a.updateTime.or a.creationTime).getD now }) := by
  refine ⟨?_, ?_, ?_⟩
  · intro h
    simp only [normalizeAnn]
    rw [if_pos (normalizeText_all_ws a.text h)]
  · intro h
    simp only [normalizeAnn]
    rw [if_pos h]
  · intro h
    simp only [normalizeAnn]
    rw [if_neg h]
    simp only [truncTitle, String.length]

/-- Long announcement text used by the C6 witness. -/
def c6LongText : String := String.mk (List.replicate 130 'H')

/-- Claim C6, witness: a whitespace-only announcement is dropped and a 130-character
announcement is truncated, both via the theorem at concrete inputs. -/
theorem claim_C6_witness :
    ((∀ ch ∈ ("   " : String).data, isWs ch) ∧
      normalizeAnn 0 c1Course ⟨"a1", "   ", none, none⟩ = none) ∧
    (normalizeText c6LongText ≠ "" ∧
      normalizeAnn 0 c1Course ⟨"a2", c6LongText, none, none⟩ = some
        { id := "ann:" ++ c1Course.id ++ ":" ++ "a2"
          title := if (normalizeText c6LongText).length > 120
            then String.mk ((normalizeText c6LongText).data.take 117) ++ "…"
            else normalizeText c6LongText
          link := jsStrOrNull c1Course.alternateLink
          dueAt := none
          topic := "ANNOUNCEMENT"
          createdAt := (((⟨"a2", c6LongText, none, none⟩ : RawAnn)).updateTime.or
            (((⟨"a2", c6LongText, none, none⟩ : RawAnn)).creationTime)).getD 0 }) :=
  ⟨⟨by decide, (claim_C6 0 c1Course ⟨"a1", "   ", none, none⟩).1 (by decide)⟩,
    ⟨by decide, (claim_C6 0 c1Course ⟨"a2", c6LongText, none, none⟩).2.2 (by decide)⟩⟩

/-! ## Manifest day keys -/

theorem keys_updateAssoc {α : Type} (k : String) (f : α → α) (dflt : α)
    (l : List (String × α)) :
    (updateAssoc k f dflt l).map Prod.fst
      = if k ∈ l.map Prod.fst then l.map Prod.fst else l.map Prod.fst ++ [k] := by
  induction l with
  | nil => simp [updateAssoc]
  | cons p rest ih =>
    obtain ⟨k', v⟩ := p
    by_cases h : k' = k
    · subst h
      simp [updateAssoc]
    · simp only [updateAssoc, if_neg h, List.map_cons, ih]
      by_cases hmem : k ∈ rest.map Prod.fst
      · simp [hmem, h, List.mem_cons, Ne.symm h]
      · simp [hmem, List.mem_cons, Ne.symm h]

theorem mem_keys_updateAssoc {α : Type} (x k : String) (f : α → α) (dflt : α)
    (l : List (String × α)) :
    x ∈ (updateAssoc k f dflt l).map Prod.fst ↔ x ∈ l.map Prod.fst ∨ x = k := by
  rw [keys_updateAssoc]
  split
  · constructor
    · exact Or.inl
    · rintro (hx | rfl)
      · exact hx
      · assumption
  · simp [List.mem_append]

theorem nodup_keys_updateAssoc {α : Type} (k : String) (f : α → α) (dflt : α)
    (l : List (String × α)) (h : (l.map Prod.fst).Nodup) :
    ((updateAssoc k f dflt l).map Prod.fst).Nodup := by
  rw [keys_updateAssoc]
  split
  · exact h
  · rename_i hk
    refine h.append (List.nodup_singleton k) ?_
    intro x hx1 hx2
    rw [List.mem_singleton] at hx2
    subst hx2
    exact hk hx1

theorem keys_buildBuckets_nodup :
    ∀ (pushes : List (String × String × Item)) (acc : List (String × List (String × List Item))),
      (acc.map Prod.fst).Nodup →
      ((pushes.foldl (fun b p => pushItem b p.1 p.2.1 p.2.2) acc).map Prod.fst).Nodup := by
  intro pushes
  induction pushes with
  | nil => intro acc h; exact h
  | cons p ps ih =>
    intro acc h
    rw [List.foldl_cons]
    exact ih _ (nodup_keys_updateAssoc p.1 _ _ acc h)

theorem mem_keys_buildBuckets :
    ∀ (pushes : List (String × String × Item)) (acc : List (String × List (String × List Item)))
      (x : String),
      x ∈ (pushes.foldl (fun b p => pushItem b p.1 p.2.1 p.2.2) acc).map Prod.fst ↔
        x ∈ acc.map Prod.fst ∨ x ∈ pushes.map (·.1) := by
  intro pushes
  induction pushes with
  | nil => intro acc x; simp
  | cons p ps ih =>
    intro acc x
    rw [List.foldl_cons, ih]
    rw [pushItem, mem_keys_updateAssoc]
    simp only [List.map_cons, List.mem_cons]
    tauto

theorem charsLe_iff : ∀ x y : List Char, charsLe x y = true ↔ ¬ y < x := by
  intro x
  induction x with
  | nil =>
    intro y
    constructor
    · intro _ hlt
      exact List.Lex.not_nil_right _ _ hlt
    · intro _
      rfl
  | cons a as ih =>
    intro y
    cases y with
    | nil =>
      simp only [charsLe]
      constructor
      · intro h
        cases h
      · intro h
        exact absurd (List.nil_lt_cons a as) h
    | cons b bs =>
      by_cases hab : a < b
      · simp only [charsLe, if_pos hab]
        constructor
        · intro _ hlt
          cases hlt with
          | cons h' => exact absurd hab (lt_irrefl a)
          | rel h' => exact absurd h' (lt_asymm hab)
        · intro _
          trivial
      · by_cases hba : b < a
        · simp only [charsLe, if_neg hab, if_pos hba]
          constructor
          · intro h
            cases h
          · intro h
            exact absurd (List.Lex.rel hba) h
        · have heq : a = b := le_antisymm (le_of_not_lt hba) (le_of_not_lt hab)
          subst heq
          simp only [charsLe, if_neg hab, if_neg hba]
          rw [ih bs]
          constructor
          · intro h hlt
            cases hlt with
            | cons h' => exact h h'
            | rel h' => exact absurd h' hab
          · intro h hlt
            exact h (List.Lex.cons hlt)

theorem strLe_iff (a b : String) : strLe a b = true ↔ a ≤ b := by
  rw [strLe, charsLe_iff]
  constructor
  · intro h hba
    exact h (String.lt_iff_toList_lt.mp hba)
  · intro h hba
    exact h (String.lt_iff_toList_lt.mpr hba)

theorem sortStrings_sorted (l : List String) :
    (sortStrings l).Pairwise (fun a b : String => a ≤ b) := by
  haveI : IsTotal String (fun a b : String => strLe a b = true) := by
    constructor
    intro a b
    rcases le_total a b with h | h
    · exact Or.inl ((strLe_iff a b).mpr h)
    · exact Or.inr ((strLe_iff b a).mpr h)
  haveI : IsTrans String (fun a b : String => strLe a b = true) := by
    constructor
    intro a b c hab hbc
    exact (strLe_iff a c).mpr (le_trans ((strLe_iff a b).mp hab) ((strLe_iff b c).mp hbc))
  exact (List.sorted_insertionSort _ l).imp fun h => (strLe_iff _ _).mp h

theorem sortStrings_perm (l : List String) : (sortStrings l).Perm l :=
  List.perm_insertionSort _ l

theorem sortStrings_strict (l : List String) (h : l.Nodup) :
    (sortStrings l).Pairwise (fun a b : String => a < b) := by
  have h1 := sortStrings_sorted l
  have h2 : (sortStrings l).Nodup := ((sortStrings_perm l).nodup_iff).mpr h
  exact (h1.and h2).imp fun hab => lt_of_le_of_ne hab.1 hab.2

theorem getLast?_max :
    ∀ (l : List String), l.Pairwise (fun a b : String => a ≤ b) →
      ∀ L, l.getLast? = some L → L ∈ l ∧ ∀ k ∈ l, k ≤ L := by
  intro l
  induction l with
  | nil => intro _ L hL; simp at hL
  | cons a t ih =>
    intro hp L hL
    cases t with
    | nil =>
      simp only [List.getLast?_singleton, Option.some.injEq] at hL
      subst hL
      exact ⟨List.mem_singleton_self a, by simp⟩
    | cons b t2 =>
      rw [List.getLast?_cons_cons] at hL
      obtain ⟨hmem, hmax⟩ := ih hp.of_cons L hL
      refine ⟨List.mem_cons_of_mem a hmem, ?_⟩
      intro k hk
      rcases List.mem_cons.mp hk with rfl | hk2
      · exact List.rel_of_pairwise_cons hp hmem
      · exact hmax k hk2

/-- Claim C8: the manifest lists exactly the lexicographically sorted set of
distinct observed day keys, each paired with its cosmetic label, and latestDay is
the lexicographic maximum of the observed day keys, or absent when none were
observed. -/
theorem claim_C8 (now : Int) (courses : List Course)
    (cwFetch : Course → Except Unit (List RawWork))
    (annFetch : Course → Except Unit (List RawAnn)) :
    ((runBuild now courses cwFetch annFetch).2.days.map Prod.fst).Pairwise
        (fun a b : String => a < b) ∧
    (∀ k, k ∈ (runBuild now courses cwFetch annFetch).2.days.map Prod.fst ↔
      k ∈ (collectPushes now courses cwFetch annFetch).map (·.1)) ∧
    (∀ p ∈ (runBuild now courses cwFetch annFetch).2.days, p.2 = kstLabel p.1) ∧
    ((runBuild now courses cwFetch annFetch).2.latestDay = none ↔
      (collectPushes now courses cwFetch annFetch).map (·.1) = []) ∧
    (∀ L, (runBuild now courses cwFetch annFetch).2.latestDay = some L →
      L ∈ (collectPushes now courses cwFetch annFetch).map (·.1) ∧
      ∀ k ∈ (collectPushes now courses cwFetch annFetch).map (·.1), k ≤ L) := by
  have hdays : (runBuild now courses cwFetch annFetch).2.days
      = (sortStrings ((buildBuckets (collectPushes now courses cwFetch annFetch)).map
          Prod.fst)).map (fun d2 => (d2, kstLabel d2)) := by
    simp only [runBuild]
  have hlatest : (runBuild now courses cwFetch annFetch).2.latestDay
      = (sortStrings ((buildBuckets (collectPushes now courses cwFetch annFetch)).map
          Prod.fst)).getLast? := by
    simp only [runBuild]
  set pushes := collectPushes now courses cwFetch annFetch with hpushes
  set bkeys := (buildBuckets pushes).map Prod.fst with hbkeys
  have hnodup : bkeys.Nodup := keys_buildBuckets_nodup pushes [] (by simp)
  have hmem : ∀ x, x ∈ bkeys ↔ x ∈ pushes.map (·.1) := by
    intro x
    rw [hbkeys, buildBuckets, mem_keys_buildBuckets]
    simp
  have hsorted := sortStrings_sorted bkeys
  have hperm := sortStrings_perm bkeys
  have hstrict := sortStrings_strict bkeys hnodup
  have hdmap : ((sortStrings bkeys).map (fun d2 => (d2, kstLabel d2))).map Prod.fst
      = sortStrings bkeys := by
    rw [List.map_map]
    exact List.map_id _
  refine ⟨?_, ?_, ?_, ?_, ?_⟩
  · rw [hdays, hdmap]
    exact hstrict
  · intro k
    rw [hdays, hdmap, hperm.mem_iff, hmem]
  · intro p hp
    rw [hdays] at hp
    obtain ⟨d2, _, rfl⟩ := List.mem_map.mp hp
    rfl
  · rw [hlatest, List.getLast?_eq_none_iff]
    constructor
    · intro h
      rw [List.eq_nil_iff_forall_not_mem]
      intro x hx
      have : x ∈ sortStrings bkeys := hperm.mem_iff.mpr ((hmem x).mpr hx)
      rw [h] at this
      exact absurd this (List.not_mem_nil x)
    · intro h
      rw [List.eq_nil_iff_forall_not_mem]
      intro x hx
      have : x ∈ pushes.map (·.1) := (hmem x).mp (hperm.mem_iff.mp hx)
      rw [h] at this
      exact absurd this (List.not_mem_nil x)
  · intro L hL
    rw [hlatest] at hL
    obtain ⟨hmemL, hmax⟩ := getLast?_max _ hsorted L hL
    refine ⟨(hmem L).mp (hperm.mem_iff.mp hmemL), ?_⟩
    intro k hk
    exact hmax k (hperm.mem_iff.mpr ((hmem k).mpr hk))

/-- Coursework fetch used by the C8 witness: three records whose anchors fall on
2024-01-02, 2024-01-10 and 2023-12-31 in the +540 zone. -/
def c8cwFetch : Course → Except Unit (List RawWork) := fun _ =>
  .ok [c1Work ("w1") (utcMillis 2024 1 2 0 0),
       c1Work ("w2") (utcMillis 2024 1 10 0 0),
       c1Work ("w3") (utcMillis 2023 12 31 0 0)]

/-- Claim C8, witness: over the observed day keys 2024-01-02, 2024-01-10 and
2023-12-31, latestDay is 2024-01-10, via the theorem at a concrete run. -/
theorem claim_C8_witness :
    (runBuild 0 [c1Course] c8cwFetch (fun _ => .error ())).2.latestDay
        = some "2024-01-10" ∧
    "2024-01-10" ∈ (collectPushes 0 [c1Course] c8cwFetch (fun _ => .error ())).map (·.1) ∧
    ∀ k ∈ (collectPushes 0 [c1Course] c8cwFetch (fun _ => .error ())).map (·.1),
      k ≤ "2024-01-10" :=
  ⟨by decide,
    ((claim_C8 0 [c1Course] c8cwFetch (fun _ => .error ())).2.2.2.2 "2024-01-10"
      (by decide)).1,
    ((claim_C8 0 [c1Course] c8cwFetch (fun _ => .error ())).2.2.2.2 "2024-01-10"
      (by decide)).2⟩

/-! ## Determinism of the pipeline -/

/-- The content of a snapshot document other than its `generatedAt` field. -/
def snapBody (s : SnapshotDoc) : String × List (String × List Item) := (s.day, s.groups)

/-- The content of the manifest other than its `generatedAt` field. -/
def manifestBody (m : ManifestDoc) : Option String × List (String × String) :=
  (m.latestDay, m.days)

/-- The list held by a fetch result: its records on success, nothing on failure. -/
def okList {α : Type} : Except Unit (List α) → List α
  | .ok l => l
  | .error _ => []

theorem normalizeWork_now_irrel (now1 now2 : Int) (c : Course) (w : RawWork)
    (h : (w.updateTime.or w.creationTime).isSome) :
    normalizeWork now1 c w = normalizeWork now2 c w := by
  cases hu : w.updateTime.or w.creationTime with
  | none => rw [hu] at h; simp at h
  | some t => simp [normalizeWork, hu]

theorem normalizeAnn_now_irrel (now1 now2 : Int) (c : Course) (a : RawAnn)
    (h : (a.updateTime.or a.creationTime).isSome) :
    normalizeAnn now1 c a = normalizeAnn now2 c a := by
  cases hu : a.updateTime.or a.creationTime with
  | none => rw [hu] at h; simp at h
  | some t => simp [normalizeAnn, hu]

theorem collectPushes_now_irrel (now1 now2 : Int) (courses : List Course)
    (cwFetch : Course → Except Unit (List RawWork))
    (annFetch : Course → Except Unit (List RawAnn))
    (hw : ∀ c ∈ courses, ∀ w ∈ okList (cwFetch c), (w.updateTime.or w.creationTime).isSome)
    (ha : ∀ c ∈ courses, ∀ a ∈ okList (annFetch c), (a.updateTime.or a.creationTime).isSome) :
    collectPushes now1 courses cwFetch annFetch
      = collectPushes now2 courses cwFetch annFetch := by
  unfold collectPushes
  apply List.flatMap_congr
  intro c hc
  have hcp : coursePushes now1 (cwFetch c) (annFetch c) c
      = coursePushes now2 (cwFetch c) (annFetch c) c := by
    unfold coursePushes
    congr 1
    · cases hcw : cwFetch c with
      | error e => rfl
      | ok ws =>
        apply List.map_congr_left
        intro w hwmem
        refine normalizeWork_now_irrel now1 now2 c w (hw c hc w ?_)
        rw [hcw]
        exact hwmem
    · cases han : annFetch c with
      | error e => rfl
      | ok as2 =>
        apply List.filterMap_congr
        intro a hamem
        refine normalizeAnn_now_irrel now1 now2 c a (ha c hc a ?_)
        rw [han]
        exact hamem
  rw [hcp]

/-- Claim C9, counterexample: with a coursework record whose updateTime and
creationTime are both absent, two runs over identical remote data at different
times produce different snapshot documents even after discarding `generatedAt`
(the current-time fallback leaks into `createdAt` and the day bucket). -/
def c9TimelessCw : Course → Except Unit (List RawWork) := fun _ =>
  .ok [⟨"w1", "T", none, none, none, none, none, none⟩]

/-- Claim C9, counterexample theorem: the two runs differ outside `generatedAt`. -/
theorem claim_C9_counterexample :
    (runBuild 0 [c1Course] c9TimelessCw (fun _ => .error ())).1.map snapBody
      ≠ (runBuild 86400000 [c1Course] c9TimelessCw (fun _ => .error ())).1.map snapBody := by
  decide

/-- Claim C9 (amended): when every fetched record carries an updateTime or a
creationTime (no record relies on the current-time fallback), two runs over
identical remote data produce identical snapshot documents and manifest except
for the `generatedAt` field. -/
theorem claim_C9 (now1 now2 : Int) (courses : List Course)
    (cwFetch : Course → Except Unit (List RawWork))
    (annFetch : Course → Except Unit (List RawAnn))
    (hw : ∀ c ∈ courses, ∀ w ∈ okList (cwFetch c), (w.updateTime.or w.creationTime).isSome)
    (ha : ∀ c ∈ courses, ∀ a ∈ okList (annFetch c), (a.updateTime.or a.creationTime).isSome) :
    (runBuild now1 courses cwFetch annFetch).1.map snapBody
      = (runBuild now2 courses cwFetch annFetch).1.map snapBody ∧
    manifestBody (runBuild now1 courses cwFetch annFetch).2
      = manifestBody (runBuild now2 courses cwFetch annFetch).2 := by
  have hp := collectPushes_now_irrel now1 now2 courses cwFetch annFetch hw ha
  constructor
  · simp only [runBuild, hp]
    rw [List.map_map, List.map_map]
    apply List.map_congr_left
    intro d hd
    rfl
  · simp only [runBuild, hp, manifestBody]

/-- Claim C9, witness: the amended theorem applied to a concrete timed run at two
different run times. -/
theorem claim_C9_witness :
    (∀ c ∈ [c1Course], ∀ w ∈ okList (c8cwFetch c),
        (w.updateTime.or w.creationTime).isSome) ∧
    (runBuild 5 [c1Course] c8cwFetch (fun _ => .error ())).1.map snapBody
      = (runBuild 77 [c1Course] c8cwFetch (fun _ => .error ())).1.map snapBody :=
  ⟨by decide,
    (claim_C9 5 77 [c1Course] c8cwFetch (fun _ => .error ()) (by decide) (by decide)).1⟩

/-! ## Per-course fault isolation -/

/-- Claim C5: a failed coursework or announcements fetch for one course is
swallowed and equivalent to zero results for that course and kind — the whole
run's output documents are those of the run with the failure replaced by an
empty result, other courses and the other kind are untouched — and a course
whose coursework fetch fails still contributes every announcement-derived item
to the run's pushes. -/
theorem claim_C5 (now : Int) (courses : List Course)
    (cwFetch : Course → Except Unit (List RawWork))
    (annFetch : Course → Except Unit (List RawAnn)) (c : Course) :
    (∀ e, cwFetch c = .error e →
      collectPushes now courses cwFetch annFetch
        = collectPushes now courses (fun c2 => if c2 = c then .ok [] else cwFetch c2)
            annFetch ∧
      runBuild now courses cwFetch annFetch
        = runBuild now courses (fun c2 => if c2 = c then .ok [] else cwFetch c2)
            annFetch) ∧
    (∀ e, annFetch c = .error e →
      collectPushes now courses cwFetch annFetch
        = collectPushes now courses cwFetch
            (fun c2 => if c2 = c then .ok [] else annFetch c2) ∧
      runBuild now courses cwFetch annFetch
        = runBuild now courses cwFetch
            (fun c2 => if c2 = c then .ok [] else annFetch c2)) ∧
    (∀ e anns, cwFetch c = .error e → annFetch c = .ok anns → c ∈ courses →
      ∀ a ∈ anns, ∀ it, normalizeAnn now c a = some it →
        (kstDayKey it.createdAt, c.name, it)
          ∈ collectPushes now courses cwFetch annFetch) := by
  refine ⟨?_, ?_, ?_⟩
  · intro e hcw
    have hpush : collectPushes now courses cwFetch annFetch
        = collectPushes now courses (fun c2 => if c2 = c then .ok [] else cwFetch c2)
            annFetch := by
      unfold collectPushes
      apply List.flatMap_congr
      intro c2 _
      by_cases h : c2 = c
      · subst h
        simp [coursePushes, hcw]
      · simp [h]
    exact ⟨hpush, by simp only [runBuild, hpush]⟩
  · intro e han
    have hpush : collectPushes now courses cwFetch annFetch
        = collectPushes now courses cwFetch
            (fun c2 => if c2 = c then .ok [] else annFetch c2) := by
      unfold collectPushes
      apply List.flatMap_congr
      intro c2 _
      by_cases h : c2 = c
      · subst h
        simp [coursePushes, han]
      · simp [h]
    exact ⟨hpush, by simp only [runBuild, hpush]⟩
  · intro e anns hcw han hcmem a hamem it hit
    unfold collectPushes
    rw [List.mem_flatMap]
    refine ⟨c, hcmem, ?_⟩
    rw [List.mem_map]
    refine ⟨it, ?_, rfl⟩
    simp only [coursePushes, hcw, han, List.nil_append, List.mem_filterMap]
    exact ⟨a, hamem, hit⟩

/-- Announcement fetch used by the C5 witness. -/
def c5AnnFetch : Course → Except Unit (List RawAnn) := fun _ =>
  .ok [⟨"a1", "Homework due Friday", none, some 1000⟩]

/-- The item produced from the C5 witness announcement. -/
def c5Item : Item :=
  { id := "ann:c1:a1"
    title := "Homework due Friday"
    link := none
    dueAt := none
    topic := "ANNOUNCEMENT"
    createdAt := 1000 }

/-- Claim C5, witness: a course with a failing coursework fetch and a succeeding
announcements fetch still contributes its announcement item, via the theorem at
a concrete run. -/
theorem claim_C5_witness :
    ((fun _ : Course => (.error () : Except Unit (List RawWork))) c1Course = .error ()) ∧
    (c5AnnFetch c1Course = .ok [⟨"a1", "Homework due Friday", none, some 1000⟩]) ∧
    c1Course ∈ [c1Course] ∧
    normalizeAnn 0 c1Course ⟨"a1", "Homework due Friday", none, some 1000⟩ = some c5Item ∧
    (kstDayKey c5Item.createdAt, c1Course.name, c5Item)
      ∈ collectPushes 0 [c1Course] (fun _ => .error ()) c5AnnFetch :=
  ⟨rfl, rfl, by decide,
    by decide,
    (claim_C5 0 [c1Course] (fun _ => .error ()) c5AnnFetch c1Course).2.2
      () [⟨"a1", "Homework due Friday", none, some 1000⟩] rfl rfl (by decide)
      ⟨"a1", "Homework due Friday", none, some 1000⟩ (by decide) c5Item (by decide)⟩

/-! ## Identifier uniqueness and nonempty titles -/

/-- The items of a run, in push order. -/
def runItems (now : Int) (courses : List Course)
    (cwFetch : Course → Except Unit (List RawWork))
    (annFetch : Course → Except Unit (List RawAnn)) : List Item :=
  (collectPushes now courses cwFetch annFetch).map (fun p => p.2.2)

theorem runItems_eq (now : Int) (courses : List Course)
    (cwFetch : Course → Except Unit (List RawWork))
    (annFetch : Course → Except Unit (List RawAnn)) :
    runItems now courses cwFetch annFetch
      = courses.flatMap fun c => coursePushes now (cwFetch c) (annFetch c) c := by
  unfold runItems collectPushes
  rw [List.map_flatMap]
  apply List.flatMap_congr
  intro c _
  rw [List.map_map]
  have hcomp : ((fun p : String × String × Item => p.2.2)
      ∘ fun it => (kstDayKey it.createdAt, c.name, it)) = id := rfl
  rw [hcomp, List.map_id]

theorem append_colon_inj :
    ∀ (a1 b1 a2 b2 : List Char), ':' ∉ a1 → ':' ∉ a2 →
      a1 ++ ':' :: b1 = a2 ++ ':' :: b2 → a1 = a2 ∧ b1 = b2 := by
  intro a1
  induction a1 with
  | nil =>
    intro b1 a2 b2 _ h2 h
    cases a2 with
    | nil =>
      simp only [List.nil_append] at h
      exact ⟨rfl, (List.cons.inj h).2⟩
    | cons c2 t2 =>
      simp only [List.nil_append, List.cons_append] at h
      have hc := (List.cons.inj h).1
      exact absurd (by rw [hc]; exact List.mem_cons_self c2 t2) h2
  | cons c1 t1 ih =>
    intro b1 a2 b2 h1 h2 h
    cases a2 with
    | nil =>
      simp only [List.nil_append, List.cons_append] at h
      have hc := (List.cons.inj h).1
      exact absurd (by rw [← hc]; exact List.mem_cons_self c1 t1) h1
    | cons c2 t2 =>
      simp only [List.cons_append] at h
      have hc := (List.cons.inj h).1
      obtain ⟨ha, hb⟩ := ih b1 t2 b2 (fun hx => h1 (List.mem_cons_of_mem c1 hx))
        (fun hx => h2 (List.mem_cons_of_mem c2 hx)) (List.cons.inj h).2
      exact ⟨by rw [hc, ha], hb⟩

theorem cwId_inj (cid1 wid1 cid2 wid2 : String)
    (h1 : ':' ∉ cid1.data) (h2 : ':' ∉ cid2.data)
    (h : "cw:" ++ cid1 ++ ":" ++ wid1 = "cw:" ++ cid2 ++ ":" ++ wid2) :
    cid1 = cid2 ∧ wid1 = wid2 := by
  rw [String.ext_iff] at h
  simp only [String.data_append] at h
  simp only [List.append_assoc, List.cons_append, List.nil_append] at h
  have h' := (List.cons.inj ((List.cons.inj ((List.cons.inj h).2)).2)).2
  obtain ⟨ha, hb⟩ := append_colon_inj cid1.data wid1.data cid2.data wid2.data h1 h2 h'
  exact ⟨String.ext ha, String.ext hb⟩

theorem annId_inj (cid1 aid1 cid2 aid2 : String)
    (h1 : ':' ∉ cid1.data) (h2 : ':' ∉ cid2.data)
    (h : "ann:" ++ cid1 ++ ":" ++ aid1 = "ann:" ++ cid2 ++ ":" ++ aid2) :
    cid1 = cid2 ∧ aid1 = aid2 := by
  rw [String.ext_iff] at h
  simp only [String.data_append] at h
  simp only [List.append_assoc, List.cons_append, List.nil_append] at h
  have h' := (List.cons.inj ((List.cons.inj ((List.cons.inj ((List.cons.inj h).2)).2)).2)).2
  obtain ⟨ha, hb⟩ := append_colon_inj cid1.data aid1.data cid2.data aid2.data h1 h2 h'
  exact ⟨String.ext ha, String.ext hb⟩

theorem cwId_ne_annId (cid1 wid cid2 aid : String) :
    "cw:" ++ cid1 ++ ":" ++ wid ≠ "ann:" ++ cid2 ++ ":" ++ aid := by
  intro h
  rw [String.ext_iff] at h
  simp only [String.data_append] at h
  simp only [List.append_assoc, List.cons_append, List.nil_append] at h
  exact absurd (List.cons.inj h).1 (by decide)

theorem normalizeAnn_some (now : Int) (c : Course) (a : RawAnn) (it : Item)
    (h : normalizeAnn now c a = some it) :
    normalizeText a.text ≠ "" ∧
      it = { id := "ann:" ++ c.id ++ ":" ++ a.id
             title := truncTitle (normalizeText a.text)
             link := jsStrOrNull c.alternateLink
             dueAt := none
             topic := "ANNOUNCEMENT"
             createdAt := (a.updateTime.or a.creationTime).getD now } := by
  simp only [normalizeAnn] at h
  by_cases ht : normalizeText a.text = ""
  · rw [if_pos ht] at h
    cases h
  · rw [if_neg ht] at h
    exact ⟨ht, (Option.some.inj h).symm⟩

theorem truncTitle_ne_empty (txt : String) (h : txt ≠ "") : truncTitle txt ≠ "" := by
  unfold truncTitle
  split
  · intro hc
    rw [String.ext_iff] at hc
    simp [String.data_append] at hc
  · exact h

theorem mem_coursePushes_id (now : Int) (cwRes : Except Unit (List RawWork))
    (annRes : Except Unit (List RawAnn)) (c : Course) (x : String)
    (hx : x ∈ (coursePushes now cwRes annRes c).map Item.id) :
    (∃ w ∈ okList cwRes, x = "cw:" ++ c.id ++ ":" ++ w.id) ∨
    (∃ a ∈ okList annRes, x = "ann:" ++ c.id ++ ":" ++ a.id) := by
  unfold coursePushes at hx
  rw [List.map_append, List.mem_append] at hx
  rcases hx with hx | hx
  · left
    cases hcw : cwRes with
    | error e =>
      rw [hcw] at hx
      simp at hx
    | ok ws =>
      rw [hcw] at hx
      rw [List.map_map, List.mem_map] at hx
      obtain ⟨w, hw, hxw⟩ := hx
      exact ⟨w, by simpa [okList] using hw, hxw.symm⟩
  · right
    cases han : annRes with
    | error e =>
      rw [han] at hx
      simp at hx
    | ok as2 =>
      rw [han] at hx
      rw [List.mem_map] at hx
      obtain ⟨it, hit, hxit⟩ := hx
      rw [List.mem_filterMap] at hit
      obtain ⟨a, ha, hsome⟩ := hit
      obtain ⟨-, hform⟩ := normalizeAnn_some now c a it hsome
      refine ⟨a, by simpa [okList] using ha, ?_⟩
      rw [← hxit, hform]

theorem coursePushes_ids_pairwise (now : Int) (cwRes : Except Unit (List RawWork))
    (annRes : Except Unit (List RawAnn)) (c : Course)
    (hcol : ':' ∉ c.id.data)
    (hw : ((okList cwRes).map RawWork.id).Pairwise (· ≠ ·))
    (ha : ((okList annRes).map RawAnn.id).Pairwise (· ≠ ·)) :
    ((coursePushes now cwRes annRes c).map Item.id).Pairwise (· ≠ ·) := by
  unfold coursePushes
  rw [List.map_append, List.pairwise_append]
  refine ⟨?_, ?_, ?_⟩
  · cases hcw : cwRes with
    | error e => simp
    | ok ws =>
      rw [hcw] at hw
      simp only [okList] at hw
      rw [List.pairwise_map] at hw
      rw [List.map_map, List.pairwise_map]
      refine hw.imp ?_
      intro w1 w2 hne heq
      exact hne (cwId_inj c.id w1.id c.id w2.id hcol hcol heq).2
  · cases han : annRes with
    | error e => simp
    | ok as2 =>
      rw [han] at ha
      simp only [okList] at ha
      rw [List.pairwise_map] at ha
      rw [List.pairwise_map, List.pairwise_filterMap]
      refine ha.imp ?_
      intro a1 a2 hne it1 h1 it2 h2 heq
      obtain ⟨-, hf1⟩ := normalizeAnn_some now c a1 it1 h1
      obtain ⟨-, hf2⟩ := normalizeAnn_some now c a2 it2 h2
      rw [hf1, hf2] at heq
      exact hne (annId_inj c.id a1.id c.id a2.id hcol hcol heq).2
  · intro x hx y hy
    cases hcw : cwRes with
    | error e =>
      rw [hcw] at hx
      simp at hx
    | ok ws =>
      rw [hcw] at hx
      rw [List.map_map, List.mem_map] at hx
      obtain ⟨w, _, hxw⟩ := hx
      cases han : annRes with
      | error e =>
        rw [han] at hy
        simp at hy
      | ok as2 =>
        rw [han] at hy
        rw [List.mem_map] at hy
        obtain ⟨it, hit, hyit⟩ := hy
        rw [List.mem_filterMap] at hit
        obtain ⟨a, _, hsome⟩ := hit
        obtain ⟨-, hform⟩ := normalizeAnn_some now c a it hsome
        rw [← hxw, ← hyit, hform]
        exact cwId_ne_annId c.id w.id c.id a.id

/-- Claim C7: with well-formed remote data (distinct colon-free course ids,
per-course distinct coursework ids and announcement ids, nonempty coursework
titles), every item of a run has a globally unique id — the id namespacing by
source kind, course id and native id never collides — and a nonempty title, for
coursework-derived items as well as announcements. -/
theorem claim_C7 (now : Int) (courses : List Course)
    (cwFetch : Course → Except Unit (List RawWork))
    (annFetch : Course → Except Unit (List RawAnn))
    (hcid : (courses.map Course.id).Pairwise (· ≠ ·))
    (hcol : ∀ c ∈ courses, ':' ∉ c.id.data)
    (hwids : ∀ c ∈ courses, ((okList (cwFetch c)).map RawWork.id).Pairwise (· ≠ ·))
    (haids : ∀ c ∈ courses, ((okList (annFetch c)).map RawAnn.id).Pairwise (· ≠ ·))
    (htitle : ∀ c ∈ courses, ∀ w ∈ okList (cwFetch c), w.title ≠ "") :
    ((runItems now courses cwFetch annFetch).map Item.id).Pairwise (· ≠ ·) ∧
    ∀ it ∈ runItems now courses cwFetch annFetch, it.title ≠ "" := by
  rw [runItems_eq]
  constructor
  · rw [List.map_flatMap, List.pairwise_flatMap]
    constructor
    · intro c hc
      exact coursePushes_ids_pairwise now (cwFetch c) (annFetch c) c (hcol c hc)
        (hwids c hc) (haids c hc)
    · rw [List.pairwise_map] at hcid
      refine hcid.imp_of_mem ?_
      intro c1 c2 hc1 hc2 hne x hx y hy heq
      rcases mem_coursePushes_id now (cwFetch c1) (annFetch c1) c1 x hx
          with ⟨w1, _, rfl⟩ | ⟨a1, _, rfl⟩ <;>
        rcases mem_coursePushes_id now (cwFetch c2) (annFetch c2) c2 y hy
          with ⟨w2, _, rfl⟩ | ⟨a2, _, rfl⟩
      · exact hne (cwId_inj _ _ _ _ (hcol c1 hc1) (hcol c2 hc2) heq).1
      · exact cwId_ne_annId _ _ _ _ heq
      · exact cwId_ne_annId _ _ _ _ heq.symm
      · exact hne (annId_inj _ _ _ _ (hcol c1 hc1) (hcol c2 hc2) heq).1
  · intro it hit
    rw [List.mem_flatMap] at hit
    obtain ⟨c, hc, hmem⟩ := hit
    unfold coursePushes at hmem
    rw [List.mem_append] at hmem
    rcases hmem with hmem | hmem
    · cases hcw : cwFetch c with
      | error e =>
        rw [hcw] at hmem
        simp at hmem
      | ok ws =>
        rw [hcw] at hmem
        rw [List.mem_map] at hmem
        obtain ⟨w, hw, hwe⟩ := hmem
        have htw : it.title = w.title := by rw [← hwe]; rfl
        rw [htw]
        exact htitle c hc w (by simpa [okList, hcw] using hw)
    · cases han : annFetch c with
      | error e =>
        rw [han] at hmem
        simp at hmem
      | ok as2 =>
        rw [han] at hmem
        rw [List.mem_filterMap] at hmem
        obtain ⟨a, ha2, hsome⟩ := hmem
        obtain ⟨hne, hform⟩ := normalizeAnn_some now c a it hsome
        rw [hform]
        exact truncTitle_ne_empty _ hne

/-- Claim C7, witness: the invariant holds on a concrete run mixing coursework
and announcement items, via the theorem with the well-formedness hypotheses
discharged by evaluation. -/
theorem claim_C7_witness :
    (([c1Course].map Course.id).Pairwise (· ≠ ·) ∧
      (∀ c ∈ [c1Course], ':' ∉ c.id.data)) ∧
    ((runItems 0 [c1Course] c8cwFetch c5AnnFetch).map Item.id).Pairwise (· ≠ ·) ∧
    (∀ it ∈ runItems 0 [c1Course] c8cwFetch c5AnnFetch, it.title ≠ "") :=
  ⟨⟨by decide, by decide⟩,
    claim_C7 0 [c1Course] c8cwFetch c5AnnFetch (by decide) (by decide) (by decide)
      (by decide) (by decide)⟩

/-! ## Device-authorization flow -/

/-- Result of one token-endpoint poll: a token on HTTP success, otherwise the
JSON error string. -/
inductive PollResult where
  | ok (token : String)
  | err (e : String)
deriving DecidableEq

/-- Outcome of the device flow. -/
inductive DeviceOutcome where
  | success (token : String)
  | failed (e : String)
  | timedOut
deriving DecidableEq

/-- JS `x || dflt` on the numeric fields of the device-code response
(`interval`, `expires_in`): absent or zero falls back to the default. -/
def jsOrNum (v : Option Nat) (dflt : Nat) : Nat :=
  match v with
  | some n => if n = 0 then dflt else n
  | none => dflt

theorem jsOrNum_pos (v : Option Nat) (dflt : Nat) (hd : 0 < dflt) : 0 < jsOrNum v dflt := by
  cases v with
  | none => exact hd
  | some n =>
    by_cases h : n = 0
    · simp [jsOrNum, h, hd]
    · simp [jsOrNum, h]
      omega

/-- An error response that the loop silently retries. -/
def isRetryErr (e : String) : Bool :=
  e == "authorization_pending" || e == "slow_down"

/-- The polling loop of `startDeviceAuth`: while the deadline has not passed,
sleep one interval, poll once (`responses i` is the result of the i-th poll),
return the token on success, silently retry on a pending/slow-down error and
fail on any other error; once the deadline passes, time out.  `hpos` records
that the sleep interval is positive (true of the source, where the interval is
at least one second). -/
def pollLoop (responses : Nat → PollResult) (intervalMs expiresAt : Nat)
    (hpos : 0 < intervalMs) (t i : Nat) : DeviceOutcome :=
  if h : t < expiresAt then
    match responses i with
    | .ok tok => .success tok
    | .err e =>
      if isRetryErr e then
        pollLoop responses intervalMs expiresAt hpos (t + intervalMs) (i + 1)
      else .failed e
  else .timedOut
termination_by expiresAt - t
decreasing_by omega

/-- Model of `startDeviceAuth` from the source, reduced to its polling behaviour: the
interval and expiry default to 5 and 600 seconds via `||`, and the loop starts
at time zero with the first poll. -/
def startDeviceAuth (interval expiresIn : Option Nat)
    (responses : Nat → PollResult) : DeviceOutcome :=
  pollLoop responses (jsOrNum interval 5 * 1000) (jsOrNum expiresIn 600 * 1000)
    (Nat.mul_pos (jsOrNum_pos interval 5 (by omega)) (by omega)) 0 0

theorem pollLoop_step_ok (responses : Nat → PollResult) (iv ex : Nat) (hpos : 0 < iv)
    (t i : Nat) (tok : String) (ht : t < ex) (h : responses i = .ok tok) :
    pollLoop responses iv ex hpos t i = .success tok := by
  unfold pollLoop
  rw [dif_pos ht, h]

theorem pollLoop_step_retry (responses : Nat → PollResult) (iv ex : Nat) (hpos : 0 < iv)
    (t i : Nat) (e : String) (ht : t < ex) (h : responses i = .err e)
    (hr : isRetryErr e = true) :
    pollLoop responses iv ex hpos t i = pollLoop responses iv ex hpos (t + iv) (i + 1) := by
  conv_lhs => rw [pollLoop]
  rw [dif_pos ht, h]
  exact if_pos hr

theorem pollLoop_step_fail (responses : Nat → PollResult) (iv ex : Nat) (hpos : 0 < iv)
    (t i : Nat) (e : String) (ht : t < ex) (h : responses i = .err e)
    (hr : isRetryErr e = false) :
    pollLoop responses iv ex hpos t i = .failed e := by
  unfold pollLoop
  rw [dif_pos ht, h]
  exact if_neg (by rw [hr]; exact Bool.false_ne_true)

theorem pollLoop_past_deadline (responses : Nat → PollResult) (iv ex : Nat) (hpos : 0 < iv)
    (t i : Nat) (ht : ¬ t < ex) : pollLoop responses iv ex hpos t i = .timedOut := by
  unfold pollLoop
  rw [dif_neg ht]

theorem pollLoop_success (responses : Nat → PollResult) (iv ex : Nat) (hpos : 0 < iv) :
    ∀ (j t i : Nat) (tok : String),
      (∀ k < j, ∃ e, responses (i + k) = .err e ∧ isRetryErr e = true) →
      responses (i + j) = .ok tok → t + j * iv < ex →
      pollLoop responses iv ex hpos t i = .success tok := by
  intro j
  induction j with
  | zero =>
    intro t i tok _ hok hlt
    exact pollLoop_step_ok responses iv ex hpos t i tok (by omega) hok
  | succ n ih =>
    intro t i tok hret hok hlt
    rw [Nat.succ_mul] at hlt
    obtain ⟨e, he, hr⟩ := hret 0 (by omega)
    rw [show i + 0 = i from rfl] at he
    rw [pollLoop_step_retry responses iv ex hpos t i e (by omega) he hr]
    refine ih (t + iv) (i + 1) tok ?_ ?_ (by omega)
    · intro k hk
      obtain ⟨e2, he2, hr2⟩ := hret (k + 1) (by omega)
      exact ⟨e2, by rw [show i + 1 + k = i + (k + 1) from by omega]; exact he2, hr2⟩
    · rw [show i + 1 + n = i + (n + 1) from by omega]
      exact hok

theorem pollLoop_failed (responses : Nat → PollResult) (iv ex : Nat) (hpos : 0 < iv) :
    ∀ (j t i : Nat) (e : String),
      (∀ k < j, ∃ e2, responses (i + k) = .err e2 ∧ isRetryErr e2 = true) →
      responses (i + j) = .err e → isRetryErr e = false → t + j * iv < ex →
      pollLoop responses iv ex hpos t i = .failed e := by
  intro j
  induction j with
  | zero =>
    intro t i e _ herr hnr hlt
    rw [show i + 0 = i from rfl] at herr
    exact pollLoop_step_fail responses iv ex hpos t i e (by omega) herr hnr
  | succ n ih =>
    intro t i e hret herr hnr hlt
    rw [Nat.succ_mul] at hlt
    obtain ⟨e0, he0, hr0⟩ := hret 0 (by omega)
    rw [show i + 0 = i from rfl] at he0
    rw [pollLoop_step_retry responses iv ex hpos t i e0 (by omega) he0 hr0]
    refine ih (t + iv) (i + 1) e ?_ ?_ hnr (by omega)
    · intro k hk
      obtain ⟨e2, he2, hr2⟩ := hret (k + 1) (by omega)
      exact ⟨e2, by rw [show i + 1 + k = i + (k + 1) from by omega]; exact he2, hr2⟩
    · rw [show i + 1 + n = i + (n + 1) from by omega]
      exact herr

theorem pollLoop_timeout (responses : Nat → PollResult) (iv ex : Nat) (hpos : 0 < iv) :
    ∀ (n t i : Nat), ex - t ≤ n →
      (∀ k, t + k * iv < ex → ∃ e, responses (i + k) = .err e ∧ isRetryErr e = true) →
      pollLoop responses iv ex hpos t i = .timedOut := by
  intro n
  induction n with
  | zero =>
    intro t i hle _
    exact pollLoop_past_deadline responses iv ex hpos t i (by omega)
  | succ n ih =>
    intro t i hle hret
    by_cases h : t < ex
    · obtain ⟨e, he, hr⟩ := hret 0 (by omega)
      rw [show i + 0 = i from rfl] at he
      rw [pollLoop_step_retry responses iv ex hpos t i e h he hr]
      refine ih (t + iv) (i + 1) (by omega) ?_
      intro k hk
      obtain ⟨e2, he2, hr2⟩ := hret (k + 1) (by rw [Nat.succ_mul]; omega)
      exact ⟨e2, by rw [show i + 1 + k = i + (k + 1) from by omega]; exact he2, hr2⟩
    · exact pollLoop_past_deadline responses iv ex hpos t i h

/-- Claim C3: the device flow polls at the server-specified interval (default 5
seconds, via `||`) until the server-specified expiry (default 600 seconds): a
run whose first non-retryable response is a success within the expiry returns
that credential; one whose first non-retryable response is any other error fails
with it; and a run seeing only "authorization pending"/"slow down" responses
until the expiry elapses times out and returns no credential. -/
theorem claim_C3 (interval expiresIn : Option Nat) (responses : Nat → PollResult) :
    (∀ (j : Nat) (tok : String),
      (∀ k < j, ∃ e, responses k = .err e ∧ isRetryErr e = true) →
      responses j = .ok tok →
      j * (jsOrNum interval 5 * 1000) < jsOrNum expiresIn 600 * 1000 →
      startDeviceAuth interval expiresIn responses = .success tok) ∧
    (∀ (j : Nat) (e : String),
      (∀ k < j, ∃ e2, responses k = .err e2 ∧ isRetryErr e2 = true) →
      responses j = .err e → isRetryErr e = false →
      j * (jsOrNum interval 5 * 1000) < jsOrNum expiresIn 600 * 1000 →
      startDeviceAuth interval expiresIn responses = .failed e) ∧
    ((∀ k, k * (jsOrNum interval 5 * 1000) < jsOrNum expiresIn 600 * 1000 →
        ∃ e, responses k = .err e ∧ isRetryErr e = true) →
      startDeviceAuth interval expiresIn responses = .timedOut) := by
  refine ⟨?_, ?_, ?_⟩
  · intro j tok hret hok hlt
    unfold startDeviceAuth
    refine pollLoop_success responses _ _ _ j 0 0 tok ?_ (by simpa using hok) (by omega)
    intro k hk
    simpa using hret k hk
  · intro j e hret herr hnr hlt
    unfold startDeviceAuth
    refine pollLoop_failed responses _ _ _ j 0 0 e ?_ (by simpa using herr) hnr (by omega)
    intro k hk
    simpa using hret k hk
  · intro hret
    unfold startDeviceAuth
    refine pollLoop_timeout responses _ _ _ (jsOrNum expiresIn 600 * 1000) 0 0 (by omega) ?_
    intro k hk
    simpa using hret k (by omega)

/-- Poll responses for the C3 witness: pending on the first poll, success on the
second. -/
def c3Responses : Nat → PollResult := fun k =>
  if k = 0 then .err "authorization_pending" else .ok "tok"

/-- Poll responses for the C3 witness timeout case: always pending. -/
def c3Pending : Nat → PollResult := fun _ => .err "authorization_pending"

/-- Claim C3, witness: a pending response followed by a success yields the
credential, and an all-pending run times out, via the theorem at concrete
inputs. -/
theorem claim_C3_witness :
    c3Responses 1 = .ok "tok" ∧
    startDeviceAuth (some 5) (some 600) c3Responses = .success "tok" ∧
    startDeviceAuth (some 5) (some 600) c3Pending = .timedOut :=
  ⟨by decide,
    (claim_C3 (some 5) (some 600) c3Responses).1 1 "tok"
      (by
        intro k hk
        interval_cases k
        exact ⟨"authorization_pending", rfl, rfl⟩)
      rfl (by decide),
    (claim_C3 (some 5) (some 600) c3Pending).2.2
      (fun k _ => ⟨"authorization_pending", rfl, rfl⟩)⟩

/-! ## Local loopback callback listener -/

/-- An incoming request to the loopback listener: its path and the value of the
`code` query parameter (absent, or present with a possibly empty value). -/
structure CallbackReq where
  path : String
  code : Option String
deriving DecidableEq

/-- The response written for one request. -/
structure CallbackResp where
  status : Nat
  body : String
deriving DecidableEq

/-- State of the local auth flow: whether the listener is still accepting
requests, and the authorization code resolved so far (the promise's value). -/
structure AuthServerState where
  listening : Bool
  result : Option String
deriving DecidableEq

/-- The initial state: listener up, promise unresolved. -/
def authServerInit : AuthServerState := { listening := true, result := none }

/-- The request handler of `startLocalAuth`: a path other than the callback path
is answered 404; a missing (or JS-falsy empty) code is answered 400 with the
listener left running; otherwise 200 with the static body, the listener is
closed and the code resolves the promise. -/
def handleCallback (st : AuthServerState) (req : CallbackReq) :
    AuthServerState × CallbackResp :=
  if req.path ≠ "/oauth2callback" then (st, ⟨404, "Not found"⟩)
  else
    match req.code with
    | none => (st, ⟨400, "Missing code"⟩)
    | some code =>
      if code = "" then (st, ⟨400, "Missing code"⟩)
      else ({ listening := false, result := some code },
        ⟨200, "OK. You can close this tab."⟩)

/-- Feed a sequence of requests to the listener: requests are handled while it
is listening; once it has closed, no further request is accepted. -/
def runServer (st : AuthServerState) : List CallbackReq → AuthServerState × List CallbackResp
  | [] => (st, [])
  | req :: rest =>
    if st.listening then
      let p1 := handleCallback st req
      let p2 := runServer p1.1 rest
      (p2.1, p1.2 :: p2.2)
    else (st, [])

/-- The code of the first request the handler accepts. -/
def firstGoodCode : List CallbackReq → Option String
  | [] => none
  | req :: rest =>
    if req.path = "/oauth2callback" then
      match req.code with
      | none => firstGoodCode rest
      | some code => if code = "" then firstGoodCode rest else some code
    else firstGoodCode rest

/-- Claim C4, counterexample: the claim says a callback-path request without a
code is answered 400 and the flow transitions to Failed; in the code the handler
merely responds 400 and returns — the listener stays up, nothing is rejected,
and a later request carrying a code still succeeds. -/
theorem claim_C4_counterexample :
    (handleCallback authServerInit ⟨"/oauth2callback", none⟩).2 = ⟨400, "Missing code"⟩ ∧
    (handleCallback authServerInit ⟨"/oauth2callback", none⟩).1 = authServerInit ∧
    (runServer authServerInit
        [⟨"/oauth2callback", none⟩, ⟨"/oauth2callback", some "abc"⟩]).1.result
      = some "abc" := by
  refine ⟨by decide, by decide, by decide⟩

theorem runServer_closed (st : AuthServerState) (h : st.listening = false) :
    ∀ reqs, runServer st reqs = (st, []) := by
  intro reqs
  cases reqs with
  | nil => rfl
  | cons req rest =>
    unfold runServer
    rw [h]
    simp

theorem runServer_cons_listening (st : AuthServerState) (h : st.listening = true)
    (req : CallbackReq) (rest : List CallbackReq) :
    runServer st (req :: rest)
      = ((runServer (handleCallback st req).1 rest).1,
         (handleCallback st req).2 :: (runServer (handleCallback st req).1 rest).2) := by
  conv_lhs => rw [runServer]
  rw [h]
  simp

/-- Claim C4 (amended): a request to a path other than the callback path is
answered 404; a callback-path request with a missing (or empty, hence JS-falsy)
code is answered 400 and the listener keeps waiting — the flow does not fail; a
callback-path request with a code is answered 200 with the static text body,
the listener is torn down and the code resolves the flow; over any request
sequence exactly the first code-bearing callback is accepted, and the listener
is down exactly when a code has been obtained. -/
theorem claim_C4 :
    (∀ (st : AuthServerState) (req : CallbackReq), req.path ≠ "/oauth2callback" →
      handleCallback st req = (st, ⟨404, "Not found"⟩)) ∧
    (∀ (st : AuthServerState) (req : CallbackReq), req.path = "/oauth2callback" →
      (req.code = none ∨ req.code = some "") →
      handleCallback st req = (st, ⟨400, "Missing code"⟩)) ∧
    (∀ (st : AuthServerState) (req : CallbackReq) (code : String),
      req.path = "/oauth2callback" → req.code = some code → code ≠ "" →
      handleCallback st req
        = ({ listening := false, result := some code },
            ⟨200, "OK. You can close this tab."⟩)) ∧
    (∀ reqs : List CallbackReq,
      (runServer authServerInit reqs).1.result = firstGoodCode reqs ∧
      (runServer authServerInit reqs).1.listening = (firstGoodCode reqs).isNone) := by
  refine ⟨?_, ?_, ?_, ?_⟩
  · intro st req h
    unfold handleCallback
    rw [if_pos h]
  · intro st req hp hc
    unfold handleCallback
    rw [if_neg (by simp [hp])]
    rcases hc with hc | hc <;> rw [hc]
    rfl
  · intro st req code hp hc hne
    unfold handleCallback
    rw [if_neg (by simp [hp]), hc]
    simp [hne]
  · intro reqs
    induction reqs with
    | nil => exact ⟨rfl, rfl⟩
    | cons req rest ih =>
      rw [runServer_cons_listening authServerInit rfl req rest]
      by_cases hp : req.path = "/oauth2callback"
      · cases hc : req.code with
        | none =>
          have hh : handleCallback authServerInit req
              = (authServerInit, ⟨400, "Missing code"⟩) := by
            unfold handleCallback
            rw [if_neg (by simp [hp]), hc]
          have hfg : firstGoodCode (req :: rest) = firstGoodCode rest := by
            conv_lhs => rw [firstGoodCode]
            rw [if_pos hp, hc]
          rw [hh, hfg]
          exact ⟨ih.1, ih.2⟩
        | some code =>
          by_cases hz : code = ""
          · have hh : handleCallback authServerInit req
                = (authServerInit, ⟨400, "Missing code"⟩) := by
              unfold handleCallback
              rw [if_neg (by simp [hp]), hc]
              simp [hz]
            have hfg : firstGoodCode (req :: rest) = firstGoodCode rest := by
              conv_lhs => rw [firstGoodCode]
              rw [if_pos hp, hc]
              show (if code = "" then firstGoodCode rest else some code) = firstGoodCode rest
              rw [if_pos hz]
            rw [hh, hfg]
            exact ⟨ih.1, ih.2⟩
          · have hh : handleCallback authServerInit req
                = ({ listening := false, result := some code },
                    ⟨200, "OK. You can close this tab."⟩) := by
              unfold handleCallback
              rw [if_neg (by simp [hp]), hc]
              simp [hz]
            have hfg : firstGoodCode (req :: rest) = some code := by
              conv_lhs => rw [firstGoodCode]
              rw [if_pos hp, hc]
              show (if code = "" then firstGoodCode rest else some code) = some code
              rw [if_neg hz]
            rw [hh, hfg]
            rw [show (({ listening := false, result := some code } : AuthServerState),
                (⟨200, "OK. You can close this tab."⟩ : CallbackResp)).1
                = ({ listening := false, result := some code } : AuthServerState) from rfl]
            rw [runServer_closed { listening := false, result := some code } rfl rest]
            exact ⟨rfl, rfl⟩
      · have hh : handleCallback authServerInit req
            = (authServerInit, ⟨404, "Not found"⟩) := by
          unfold handleCallback
          rw [if_pos hp]
        have hfg : firstGoodCode (req :: rest) = firstGoodCode rest := by
          conv_lhs => rw [firstGoodCode]
          rw [if_neg hp]
        rw [hh, hfg]
        exact ⟨ih.1, ih.2⟩

/-- Claim C4, witness: the amended behaviour at concrete requests — a 404, a
400 that leaves the flow alive, a 200 that resolves it, and the one-callback
characterization on a concrete request sequence. -/
theorem claim_C4_witness :
    handleCallback authServerInit ⟨"/other", none⟩ = (authServerInit, ⟨404, "Not found"⟩) ∧
    handleCallback authServerInit ⟨"/oauth2callback", none⟩
      = (authServerInit, ⟨400, "Missing code"⟩) ∧
    handleCallback authServerInit ⟨"/oauth2callback", some "abc"⟩
      = ({ listening := false, result := some "abc" },
          ⟨200, "OK. You can close this tab."⟩) ∧
    ((runServer authServerInit
        [⟨"/nope", none⟩, ⟨"/oauth2callback", none⟩,
          ⟨"/oauth2callback", some "abc"⟩]).1.result
      = firstGoodCode [⟨"/nope", none⟩, ⟨"/oauth2callback", none⟩,
          ⟨"/oauth2callback", some "abc"⟩]) :=
  ⟨claim_C4.1 authServerInit ⟨"/other", none⟩ (by decide),
    claim_C4.2.1 authServerInit ⟨"/oauth2callback", none⟩ (by decide) (Or.inl rfl),
    claim_C4.2.2.1 authServerInit ⟨"/oauth2callback", some "abc"⟩ "abc" rfl rfl (by decide),
    (claim_C4.2.2.2 [⟨"/nope", none⟩, ⟨"/oauth2callback", none⟩,
      ⟨"/oauth2callback", some "abc"⟩]).1⟩

end ClassroomPoller
